import Mathlib

/-!
# A verification development for the `python-bittorrent` client

This file gives a shallow embedding, in Lean 4, of the parts of the
repository relevant to the checked claims:

* `src/bencoding.py` — the bencoding encoder/decoder (`Encoder`, `Decoder`);
* `src/client.py`    — `Block`, `Piece`, `PieceManager` and its operations;
* `src/protocol.py`  — the peer-session state machine (`PeerConnection._start`),
  the stream framer (`PeerStreamIterator.parse`) and the message codecs;
* `src/tracker.py`   — `TrackerResponse.peers` and `Tracker.decode_port`.

Modelling conventions:

* Python byte strings are `List Nat` (one `Nat < 256` per byte);
* Python `int` attributes that the source sometimes wraps in a 1-tuple
  (via a trailing comma, e.g. `self.piece = piece,` in `Block.__init__`)
  are modelled by `PyVal`, which distinguishes an `int` from a tuple of
  ints exactly as Python does;
* fallible code returns `Res α`: the `exn` constructor records the class
  of the exception Python would raise (`TypeError`, `AttributeError`,
  `IndexError`, `ValueError`, `struct.error`, …);
* stateful methods are explicit state-passing functions; when a method
  raises after having already mutated part of the state, the embedding
  returns the state as it is at the moment the exception is raised,
  which is what the caller of the Python method observes;
* `time.time()` is an explicit `now` parameter (in milliseconds).
-/

/-- One byte string: a list of byte values. -/
abbrev Bytes := List Nat

/-- The Python values stored in the attributes of `Block`: either a plain
`int`, or a tuple of ints (produced by the trailing commas in
`Block.__init__` in `src/client.py`). -/
inductive PyVal where
  | int (n : Nat)
  | tup (ns : List Nat)
  deriving DecidableEq, Repr

/-- The classes of exception the embedded code can raise. -/
inductive PyErr where
  | typeError
  | valueError
  | attributeError
  | indexError
  | structError
  | eofError
  | runtimeError
  | osError
  deriving DecidableEq, Repr

/-- Result of running a piece of Python code: a value, or a raised
exception. -/
inductive Res (α : Type) where
  | ok (a : α)
  | exn (e : PyErr)
  deriving DecidableEq, Repr

/-- Python `REQUEST_SIZE = 2**14` from `src/protocol.py`. -/
def REQUEST_SIZE : Nat := 2 ^ 14

/-- Equality test `v == n` between a `PyVal` and a Python `int`:
a tuple never equals an int, and `==` does not raise. -/
def pyEqNat (v : PyVal) (n : Nat) : Bool :=
  match v with
  | .int m => m == n
  | .tup _ => false

/-- Lookup in a Python `dict` with `Nat` keys (insertion-ordered
association list with unique keys). -/
def dictGet {α : Type} (d : List (Nat × α)) (k : Nat) : Option α :=
  match d.find? (fun kv => kv.1 == k) with
  | some kv => some kv.2
  | none => none

/-- Python `d[k] = v` on a Python `dict`: overwrite in place if the key exists,
otherwise append (Python dicts preserve insertion order). -/
def dictSet {α : Type} (d : List (Nat × α)) (k : Nat) (v : α) : List (Nat × α) :=
  if (d.find? (fun kv => kv.1 == k)).isSome then
    d.map (fun kv => if kv.1 == k then (k, v) else kv)
  else d ++ [(k, v)]

/-- Python `del d[k]` on a Python `dict` (the key is known to be present at every
call site, guarded by `if k in d`). -/
def dictDel {α : Type} (d : List (Nat × α)) (k : Nat) : List (Nat × α) :=
  d.eraseP (fun kv => kv.1 == k)

/-- Indexing a `bitstring.BitArray` by a Python `int`: `IndexError` when
out of range. -/
def bitGet (bf : List Bool) (i : Nat) : Res Bool :=
  match bf.get? i with
  | some b => .ok b
  | none => .exn .indexError

/-- Indexing a `bitstring.BitArray` by an arbitrary `PyVal`: indexing by
a tuple raises `TypeError`. -/
def pyBitGet (bf : List Bool) (v : PyVal) : Res Bool :=
  match v with
  | .int i => bitGet bf i
  | .tup _ => .exn .typeError

/-- Replace the first element satisfying `q` by its image under `f`
(models an in-place mutation of the first matching object of a list). -/
def updateFirst {α : Type} (q : α → Bool) (f : α → α) : List α → List α
  | [] => []
  | x :: xs => if q x then f x :: xs else x :: updateFirst q f xs

/-- Split a list around the first element satisfying `q`. -/
def extractFirst {α : Type} (q : α → Bool) : List α → Option (List α × α × List α)
  | [] => none
  | x :: xs =>
    if q x then some ([], x, xs)
    else (extractFirst q xs).map (fun r => (x :: r.1, r.2.1, r.2.2))

/-- Python `Block` from `src/client.py`.  Because of the trailing commas in
`Block.__init__`, the attributes `piece`, `offset`, `length` and `status`
are 1-tuples right after construction (`status` and `length` may later be
reassigned plain ints by `Piece.reset` and
`PieceManager._initiate_pieces`). -/
structure Block where
  piece : PyVal
  offset : PyVal
  length : PyVal
  status : PyVal
  data : Option Bytes
  deriving DecidableEq, Repr

/-- Python `Block.Missing`. -/
def Block.Missing : Nat := 0

/-- Python `Block.Pending`. -/
def Block.Pending : Nat := 1

/-- Python `Block.Retrieved`. -/
def Block.Retrieved : Nat := 2

/-- Python `Block.__init__(piece, offset, length)`: every assignment carries a
trailing comma, so every attribute except `data` becomes a 1-tuple. -/
def Block.init (piece offset length : Nat) : Block :=
  { piece := .tup [piece]
    offset := .tup [offset]
    length := .tup [length]
    status := .tup [Block.Missing]
    data := none }

/-- Python `Piece` from `src/client.py` (its `__init__` has no trailing commas,
so `index`, `blocks`, `hash` are ordinary values). -/
structure Piece where
  index : Nat
  blocks : List Block
  hash : Bytes
  deriving DecidableEq, Repr

/-- Python `Piece.reset`: set every block's `status` to the plain int
`Block.Missing`. -/
def Piece.reset (p : Piece) : Piece :=
  { p with blocks := p.blocks.map (fun b => { b with status := .int Block.Missing }) }

/-- Python `Piece.next_request`: the first block whose `status is Block.Missing`
(identity on small ints coincides with equality; a tuple is never `is` an
int) is set to `Pending` in place and returned. -/
def Piece.next_request (p : Piece) : Option Block × Piece :=
  match p.blocks.find? (fun b => b.status == PyVal.int Block.Missing) with
  | none => (none, p)
  | some b =>
    (some { b with status := .int Block.Pending },
     { p with blocks := updateFirst (fun b => b.status == PyVal.int Block.Missing)
                          (fun b => { b with status := .int Block.Pending }) p.blocks })

/-- Python `Piece.block_received(offset, data)`: the first block with
`b.offset == offset` (an int; a tuple-valued `b.offset` never matches) is
marked `Retrieved` and receives the data; otherwise only a warning is
logged. -/
def Piece.block_received (p : Piece) (offset : Nat) (data : Bytes) : Piece :=
  { p with blocks := updateFirst (fun b => pyEqNat b.offset offset)
             (fun b => { b with status := .int Block.Retrieved, data := some data }) p.blocks }

/-- Python `Piece.is_complete`: no block has a status other than `Retrieved`
(`is not` on a tuple-valued status is always true). -/
def Piece.is_complete (p : Piece) : Bool :=
  (p.blocks.filter (fun b => !(b.status == PyVal.int Block.Retrieved))).length == 0

/-- Sort key used by the `Piece.data` property: Python sorts the blocks
by their `offset` attribute; all offsets are 1-tuples (they are never
reassigned), and 1-tuples compare by their single component. -/
def offsetKey (b : Block) : Nat :=
  match b.offset with
  | .int n => n
  | .tup (n :: _) => n
  | .tup [] => 0

/-- Stable insertion for `sortByOffset`. -/
def insertByOffset (b : Block) : List Block → List Block
  | [] => [b]
  | x :: xs => if offsetKey b < offsetKey x then b :: x :: xs else x :: insertByOffset b xs

/-- Stable ascending sort by offset, as Python's `sorted(key=...)`. -/
def sortByOffset (l : List Block) : List Block :=
  l.foldr insertByOffset []

/-- The `Piece.data` property: `b''.join` of the block data in offset
order; joining raises `TypeError` (modelled as `none`) when some block's
`data` is still `None`. -/
def Piece.data (p : Piece) : Option Bytes :=
  let retrieved := sortByOffset p.blocks
  if retrieved.all (fun b => b.data.isSome) then
    some (retrieved.foldr (fun b acc => b.data.getD [] ++ acc) [])
  else none

/-- The torrent metainfo fields that `PieceManager` consumes. -/
structure Torrent where
  pieces : List Bytes
  piece_length : Nat
  total_size : Nat
  deriving DecidableEq, Repr

/-- Python `math.ceil(a / b)` for the nonnegative ints used by
`_initiate_pieces` (with `b > 0`). -/
def ceilDiv (a b : Nat) : Nat := (a + b - 1) / b

/-- The blocks of the final piece in `PieceManager._initiate_pieces`:
`num_blocks = ceil(last_length / REQUEST_SIZE)` whole-size blocks, and if
`last_length % REQUEST_SIZE > 0` the last block's `length` attribute is
reassigned the plain int `last_length % REQUEST_SIZE`. -/
def lastPieceBlocks (index last_length : Nat) : List Block :=
  let num_blocks := ceilDiv last_length REQUEST_SIZE
  let blocks := (List.range num_blocks).map (fun o => Block.init index (o * REQUEST_SIZE) REQUEST_SIZE)
  if last_length % REQUEST_SIZE > 0 then
    match blocks.getLast? with
    | some lastBlock => blocks.dropLast ++ [{ lastBlock with length := .int (last_length % REQUEST_SIZE) }]
    | none => blocks
  else blocks

/-- Python `PieceManager._initiate_pieces`. -/
def _initiate_pieces (t : Torrent) : List Piece :=
  let total_pieces := t.pieces.length
  let std_piece_blocks := ceilDiv t.piece_length REQUEST_SIZE
  t.pieces.enum.map (fun iv =>
    let index := iv.1
    let hash_value := iv.2
    if index < total_pieces - 1 then
      { index := index
        blocks := (List.range std_piece_blocks).map
            (fun o => Block.init index (o * REQUEST_SIZE) REQUEST_SIZE)
        hash := hash_value }
    else
      { index := index
        blocks := lastPieceBlocks index (t.total_size % t.piece_length)
        hash := hash_value })

/-- The mutable state of `PieceManager`: the four collections, the peers
dict, and a log of the `os.write` calls performed by `_write` (position
and bytes, in order). -/
structure PMState where
  torrent : Torrent
  peers : List (Nat × List Bool)
  pending_blocks : List (Block × Nat)
  missing_pieces : List Piece
  ongoing_pieces : List Piece
  have_pieces : List Piece
  max_pending_time : Nat
  written : List (Nat × Bytes)
  deriving DecidableEq, Repr

/-- Python `PieceManager.__init__(torrent)`. -/
def PMState.init (t : Torrent) : PMState :=
  { torrent := t
    peers := []
    pending_blocks := []
    missing_pieces := _initiate_pieces t
    ongoing_pieces := []
    have_pieces := []
    max_pending_time := 300 * 1000
    written := [] }

/-- Python `PieceManager.add_peer(peer_id, bitfield)`. -/
def PMState.add_peer (pm : PMState) (peer_id : Nat) (bitfield : List Bool) : PMState :=
  { pm with peers := dictSet pm.peers peer_id bitfield }

/-- Python `PieceManager.update_peer(peer_id)` as written in `src/client.py`:
it takes no piece index and deletes the peer's entry. -/
def PMState.update_peer (pm : PMState) (peer_id : Nat) : PMState :=
  if (dictGet pm.peers peer_id).isSome then
    { pm with peers := dictDel pm.peers peer_id }
  else pm

/-- Python `PieceManager.remove_peer(peer_id)`. -/
def PMState.remove_peer (pm : PMState) (peer_id : Nat) : PMState :=
  if (dictGet pm.peers peer_id).isSome then
    { pm with peers := dictDel pm.peers peer_id }
  else pm

/-- The scan of `PieceManager._expired_requests`: for each pending
request in order, the peer's bitfield is indexed by `request.block.piece`
(a 1-tuple, so `TypeError`); were the index an int and the request
expired, the assignment `request.added = current` on the `namedtuple`
would raise `AttributeError`. -/
def expiredGo (bf : List Bool) (maxp now : Nat) : List (Block × Nat) → Res (Option Block)
  | [] => .ok none
  | (blk, added) :: rest =>
    match pyBitGet bf blk.piece with
    | .exn e => .exn e
    | .ok true =>
      if added + maxp < now then .exn .attributeError
      else expiredGo bf maxp now rest
    | .ok false => expiredGo bf maxp now rest

/-- Python `PieceManager._expired_requests(peer_id)` (pure in the state: every
path raises or returns before any mutation). -/
def PMState._expired_requests (pm : PMState) (bf : List Bool) (now : Nat) : Res (Option Block) :=
  expiredGo bf pm.max_pending_time now pm.pending_blocks

/-- The scan of `PieceManager._next_ongoing`: first ongoing piece the
peer has whose `next_request` yields a block; returns the block and the
ongoing list with that piece mutated in place. -/
def nextOngoingGo (bf : List Bool) : List Piece → Res (Option (Block × List Piece))
  | [] => .ok none
  | p :: rest =>
    match bitGet bf p.index with
    | .exn e => .exn e
    | .ok true =>
      match p.next_request with
      | (some blk, p') => .ok (some (blk, p' :: rest))
      | (none, _) =>
        match nextOngoingGo bf rest with
        | .ok (some (blk, rest')) => .ok (some (blk, p :: rest'))
        | other => other
    | .ok false =>
      match nextOngoingGo bf rest with
      | .ok (some (blk, rest')) => .ok (some (blk, p :: rest'))
      | other => other

/-- Python `PieceManager._next_ongoing(peer_id)`: on success a
`PendingRequest(block, now)` is appended to `pending_blocks`. -/
def PMState._next_ongoing (pm : PMState) (bf : List Bool) (now : Nat) : Res (Option Block) × PMState :=
  match nextOngoingGo bf pm.ongoing_pieces with
  | .exn e => (.exn e, pm)
  | .ok none => (.ok none, pm)
  | .ok (some (blk, ongoing')) =>
    (.ok (some blk),
     { pm with ongoing_pieces := ongoing',
               pending_blocks := pm.pending_blocks ++ [(blk, now)] })

/-- The inner loop of `_get_rarest_piece`: count how many known peers
have piece `i` (dict iteration order; an out-of-range bitfield index
raises). -/
def countHolders (peersD : List (Nat × List Bool)) (i : Nat) : Res Nat :=
  peersD.foldl
    (fun acc kv =>
      match acc with
      | .exn e => .exn e
      | .ok c =>
        match bitGet kv.2 i with
        | .exn e => .exn e
        | .ok true => .ok (c + 1)
        | .ok false => .ok c)
    (.ok 0)

/-- The `piece_count` dict of `_get_rarest_piece`: for each missing piece
the requesting peer has, the number of holders (a `defaultdict(int)`
keyed by the distinct `Piece` objects, in iteration order). -/
def buildPieceCount (peersD : List (Nat × List Bool)) (bf : List Bool) :
    List Piece → Res (List (Piece × Nat))
  | [] => .ok []
  | p :: rest =>
    match bitGet bf p.index with
    | .exn e => .exn e
    | .ok false => buildPieceCount peersD bf rest
    | .ok true =>
      match countHolders peersD p.index with
      | .exn e => .exn e
      | .ok c =>
        match buildPieceCount peersD bf rest with
        | .exn e => .exn e
        | .ok cs => .ok ((p, c) :: cs)

/-- Python `min(iterable, key=f)`: the first element with minimal key; raises
`ValueError` on an empty iterable. -/
def pyMin {α : Type} (f : α → Nat) : List α → Res α
  | [] => .exn .valueError
  | x :: xs => .ok (xs.foldl (fun acc y => if f y < f acc then y else acc) x)

/-- Python `PieceManager._get_rarest_piece(peer_id)`: build `piece_count`, take
the minimum, move that piece from `missing_pieces` to the end of
`ongoing_pieces`, and return it. -/
def PMState._get_rarest_piece (pm : PMState) (bf : List Bool) : Res Piece × PMState :=
  match buildPieceCount pm.peers bf pm.missing_pieces with
  | .exn e => (.exn e, pm)
  | .ok cs =>
    match pyMin (fun pc => pc.2) cs with
    | .exn e => (.exn e, pm)
    | .ok pc =>
      (.ok pc.1,
       { pm with missing_pieces := pm.missing_pieces.erase pc.1,
                 ongoing_pieces := pm.ongoing_pieces ++ [pc.1] })

/-- Python `PieceManager.next_request(peer_id)`: unknown peers get `None`;
otherwise expired requests, then ongoing pieces, then the rarest missing
piece (whose in-place `next_request` mutation lands on the piece just
appended to `ongoing_pieces`). -/
def PMState.next_request (pm : PMState) (peer_id now : Nat) : Res (Option Block) × PMState :=
  match dictGet pm.peers peer_id with
  | none => (.ok none, pm)
  | some bf =>
    match pm._expired_requests bf now with
    | .exn e => (.exn e, pm)
    | .ok (some b) => (.ok (some b), pm)
    | .ok none =>
      match pm._next_ongoing bf now with
      | (.exn e, pm') => (.exn e, pm')
      | (.ok (some b), pm') => (.ok (some b), pm')
      | (.ok none, pm') =>
        match pm'._get_rarest_piece bf with
        | (.exn e, pm'') => (.exn e, pm'')
        | (.ok rp, pm'') =>
          let rb := rp.next_request
          (.ok rb.1, { pm'' with ongoing_pieces := pm''.ongoing_pieces.dropLast ++ [rb.2] })

/-- Python `PieceManager.block_received(peer_id, piece_index, block_offset,
data)`: drop the matching pending request, find the piece in
`ongoing_pieces`, feed it the block; when `is_complete` holds, `_write`
it and move it to `have_pieces` (no hash verification occurs on this
path), otherwise reset it in place.  The write position is
`piece.index * piece_length`. -/
def PMState.block_received (pm : PMState) (peer_id piece_index block_offset : Nat)
    (data : Bytes) : Res Unit × PMState :=
  let _ := peer_id
  let pending' := pm.pending_blocks.eraseP
      (fun r => pyEqNat r.1.piece piece_index && pyEqNat r.1.offset block_offset)
  match extractFirst (fun p => p.index == piece_index) pm.ongoing_pieces with
  | none => (.ok (), { pm with pending_blocks := pending' })
  | some (pre, piece, post) =>
    let piece' := piece.block_received block_offset data
    if piece'.is_complete then
      match piece'.data with
      | none =>
        (.exn .typeError,
         { pm with pending_blocks := pending', ongoing_pieces := pre ++ piece' :: post })
      | some bs =>
        (.ok (),
         { pm with pending_blocks := pending',
                   ongoing_pieces := pre ++ post,
                   have_pieces := pm.have_pieces ++ [piece'],
                   written := pm.written ++ [(piece_index * pm.torrent.piece_length, bs)] })
    else
      (.ok (),
       { pm with pending_blocks := pending',
                 ongoing_pieces := pre ++ piece'.reset :: post })

/-- The `PieceManager` operations quantified over by the invariant
claims. -/
inductive PMOp where
  | add_peer (peer_id : Nat) (bitfield : List Bool)
  | update_peer (peer_id : Nat)
  | remove_peer (peer_id : Nat)
  | next_request (peer_id now : Nat)
  | block_received (peer_id piece_index block_offset : Nat) (data : Bytes)
  deriving DecidableEq, Repr

/-- Apply one operation, keeping the state it leaves behind (also when
the operation raises). -/
def PMState.applyOp (pm : PMState) : PMOp → PMState
  | .add_peer p bf => pm.add_peer p bf
  | .update_peer p => pm.update_peer p
  | .remove_peer p => pm.remove_peer p
  | .next_request p now => (pm.next_request p now).2
  | .block_received p i o d => (pm.block_received p i o d).2

/-- The indices of the pieces in the three collections, in order. -/
def PMState.pieceIndices (pm : PMState) : List Nat :=
  (pm.missing_pieces ++ pm.ongoing_pieces ++ pm.have_pieces).map Piece.index

/-! ## Peer wire messages and the stream framer (`src/protocol.py`) -/

/-- The decoded peer-protocol messages (`KeepAlive`, `BitField`, `Have`,
…); `Piece` messages carry `(index, begin, block)`. -/
inductive WireMsg where
  | keepAlive
  | choke
  | unchoke
  | interested
  | notInterested
  | have (index : Nat)
  | bitfieldMsg (bits : List Bool)
  | pieceMsg (index begin : Nat) (block : Bytes)
  | requestMsg (index begin length : Nat)
  | cancelMsg (index begin length : Nat)
  deriving DecidableEq, Repr

/-- Big-endian 32-bit value of the first 4 bytes (`struct.unpack('>I')`). -/
def be32 (bs : Bytes) : Nat :=
  (bs.take 4).foldl (fun acc b => acc * 256 + b) 0

/-- Python `struct.unpack('>b')`: a signed byte; the ids 0–8 are compared with
`is`, which on small ints from `struct.unpack` coincides with equality. -/
def sbyte (b : Nat) : Int :=
  if b ≤ 127 then (b : Int) else (b : Int) - 256

/-- The bits of a byte string, MSB-first (`bitstring.BitArray(bytes=...)`). -/
def bytesToBits (bs : Bytes) : List Bool :=
  bs.flatMap (fun b => (List.range 8).map (fun k => b.testBit (7 - k)))

/-- Python `BitField.decode(data)`: `struct.unpack(f'>Ib{length-1}s', data)`
requires `data` to be exactly `4 + length` bytes. -/
def BitField.decode (data : Bytes) : Res WireMsg :=
  let message_length := be32 data
  if data.length == 4 + message_length then .ok (.bitfieldMsg (bytesToBits (data.drop 5)))
  else .exn .structError

/-- Python `Have.decode(data)`: `struct.unpack('>IbI', data)` requires exactly
9 bytes. -/
def Have.decode (data : Bytes) : Res WireMsg :=
  if data.length == 9 then .ok (.have (be32 (data.drop 5))) else .exn .structError

/-- Python `Request.decode(data)`: `struct.unpack('>IbIII', data)` requires
exactly 17 bytes. -/
def Request.decode (data : Bytes) : Res WireMsg :=
  if data.length == 17 then
    .ok (.requestMsg (be32 (data.drop 5)) (be32 (data.drop 9)) (be32 (data.drop 13)))
  else .exn .structError

/-- Python `Cancel.decode(data)`: same layout as `Request`. -/
def Cancel.decode (data : Bytes) : Res WireMsg :=
  if data.length == 17 then
    .ok (.cancelMsg (be32 (data.drop 5)) (be32 (data.drop 9)) (be32 (data.drop 13)))
  else .exn .structError

/-- Python `Piece.decode(data)` in `src/protocol.py` calls
`struct.unpack(f'>IbII{length - 9}s')` without passing `data`, so it
always raises `TypeError`. -/
def PieceMsg.decode (_data : Bytes) : Res WireMsg :=
  .exn .typeError

/-- Python `PeerStreamIterator.parse`: returns the parsed message (or `None`,
or a raised exception) together with the buffer it leaves behind.  Note
the source requires `len(buffer) > 4` (strictly), returns `KeepAlive`
without consuming the 4 length bytes, compares the buffered length
against `message_length` alone, and leaves the buffer untouched for
unknown ids. -/
def PeerStreamIterator.parse (buffer : Bytes) : Res (Option WireMsg) × Bytes :=
  let header_length := 4
  if buffer.length > 4 then
    let message_length := be32 buffer
    if message_length == 0 then (.ok (some .keepAlive), buffer)
    else if buffer.length ≥ message_length then
      let message_id := sbyte (buffer.drop 4).headI
      let data := buffer.take (header_length + message_length)
      let consumed := buffer.drop (header_length + message_length)
      if message_id == 5 then
        match BitField.decode data with
        | .ok m => (.ok (some m), consumed)
        | .exn e => (.exn e, consumed)
      else if message_id == 2 then (.ok (some .interested), consumed)
      else if message_id == 3 then (.ok (some .notInterested), consumed)
      else if message_id == 0 then (.ok (some .choke), consumed)
      else if message_id == 1 then (.ok (some .unchoke), consumed)
      else if message_id == 4 then
        match Have.decode data with
        | .ok m => (.ok (some m), consumed)
        | .exn e => (.exn e, consumed)
      else if message_id == 7 then
        match PieceMsg.decode data with
        | .ok m => (.ok (some m), consumed)
        | .exn e => (.exn e, consumed)
      else if message_id == 6 then
        match Request.decode data with
        | .ok m => (.ok (some m), consumed)
        | .exn e => (.exn e, consumed)
      else if message_id == 8 then
        match Cancel.decode data with
        | .ok m => (.ok (some m), consumed)
        | .exn e => (.exn e, consumed)
      else (.ok none, buffer)
    else (.ok none, buffer)
  else (.ok none, buffer)

/-! ## The peer session state machine (`PeerConnection._start`) -/

/-- The strings appended to `my_state` / `peer_state`.  The source
appends the misspelled string `'chocked'` after the handshake (line 84)
but tests membership of `'choked'` everywhere else; both spellings are
therefore distinct values here, exactly as they are distinct Python
strings. -/
inductive SFlag where
  | chocked
  | choked
  | interested
  | pending_request
  | stopped
  deriving DecidableEq, Repr

/-- The messages the session writes to the peer. -/
inductive SentMsg where
  | interested
  | request (index begin length : Nat)
  deriving DecidableEq, Repr

/-- The state of one `PeerConnection` session after its handshake. -/
structure Session where
  my_state : List SFlag
  peer_state : List SFlag
  pm : PMState
  remote_id : Nat
  sent : List SentMsg
  error : Option PyErr
  deriving DecidableEq, Repr

/-- Lines 84–87 of `src/protocol.py`, run right after a successful
handshake: `my_state.append('chocked')`, send `Interested`,
`my_state.append('interested')`. -/
def Session.afterHandshake (pm : PMState) (remote_id : Nat) : Session :=
  { my_state := [SFlag.chocked, SFlag.interested]
    peer_state := []
    pm := pm
    remote_id := remote_id
    sent := [SentMsg.interested]
    error := none }

/-- Python `PeerConnection._request_piece`: ask the piece manager for a block
and, if one is returned, `struct.pack` a `Request` — which raises
`struct.error` when the block's `piece`/`offset`/`length` attributes are
tuples rather than ints. -/
def Session._request_piece (s : Session) (now : Nat) : Session :=
  match s.pm.next_request s.remote_id now with
  | (.exn e, pm') => { s with pm := pm', error := some e }
  | (.ok none, pm') => { s with pm := pm' }
  | (.ok (some b), pm') =>
    match b.piece, b.offset, b.length with
    | .int i, .int o, .int l => { s with pm := pm', sent := s.sent ++ [SentMsg.request i o l] }
    | _, _, _ => { s with pm := pm', error := some PyErr.structError }

/-- The message-dispatch block of the `async for` loop in
`PeerConnection._start` (lines 103–131). -/
def Session.handleMsg (s : Session) (m : WireMsg) : Session :=
  match m with
  | .bitfieldMsg bits => { s with pm := s.pm.add_peer s.remote_id bits }
  | .interested => { s with peer_state := s.peer_state ++ [SFlag.interested] }
  | .notInterested =>
    if SFlag.interested ∈ s.peer_state then
      { s with peer_state := s.peer_state.erase SFlag.interested }
    else s
  | .choke => { s with my_state := s.my_state ++ [SFlag.choked] }
  | .unchoke =>
    if SFlag.choked ∈ s.my_state then
      { s with my_state := s.my_state.erase SFlag.choked }
    else s
  | .have _ =>
    -- `self.piece_manager.update_peer(self.remote_id, message.index)`
    -- passes two arguments to a one-parameter method: `TypeError`.
    { s with error := some PyErr.typeError }
  | .keepAlive => s
  | .pieceMsg i b d =>
    if SFlag.pending_request ∈ s.my_state then
      let r := s.pm.block_received s.remote_id i b d
      match r.1 with
      | .ok _ => { s with my_state := s.my_state.erase SFlag.pending_request, pm := r.2 }
      | .exn e =>
        { s with my_state := s.my_state.erase SFlag.pending_request, pm := r.2, error := some e }
    else
      -- `list.remove` on an absent element raises `ValueError`.
      { s with error := some PyErr.valueError }
  | .requestMsg _ _ _ => s
  | .cancelMsg _ _ _ => s

/-- The request condition at the end of each loop iteration (lines
133–142): when `'choked' not in my_state`, `'interested' in my_state`
and `'pending_request' not in my_state`, append `'pending_request'` and
call `_request_piece`. -/
def Session.afterMsg (s : Session) (now : Nat) : Session :=
  if s.error.isSome then s
  else
    let choked_not_in := SFlag.choked ∉ s.my_state
    let interested_in := SFlag.interested ∈ s.my_state
    let pending_request_not_in := SFlag.pending_request ∉ s.my_state
    if choked_not_in ∧ interested_in ∧ pending_request_not_in then
      Session._request_piece { s with my_state := s.my_state ++ [SFlag.pending_request] } now
    else s

/-- One iteration of the `async for message in PeerStreamIterator(...)`
loop: the `'stopped'` check, the dispatch, then the request condition. -/
def Session.step (s : Session) (m : WireMsg) (now : Nat) : Session :=
  if s.error.isSome then s
  else if SFlag.stopped ∈ s.my_state then s
  else Session.afterMsg (Session.handleMsg s m) now

/-- Run the session loop over a list of received messages, each paired
with the current time at which it is handled. -/
def Session.run (s : Session) (msgs : List (WireMsg × Nat)) : Session :=
  msgs.foldl (fun st mn => Session.step st mn.1 mn.2) s

/-! ## The tracker response (`src/tracker.py`) -/

/-- Python `socket.inet_ntoa`: the dotted-quad string of exactly 4 bytes;
any other length raises. -/
def inet_ntoa (p : Bytes) : Res String :=
  match p with
  | [a, b, c, d] =>
    .ok (toString a ++ "." ++ toString b ++ "." ++ toString c ++ "." ++ toString d)
  | _ => .exn .osError

/-- Python `Tracker.decode_port(port)`: `struct.unpack(">H", port)` requires
exactly 2 bytes and raises `struct.error` otherwise. -/
def Tracker.decode_port (port : Bytes) : Res Nat :=
  match port with
  | [hi, lo] => .ok (hi * 256 + lo)
  | _ => .exn .structError

/-- The chunking `[peers[i:i+6] for i in range(0, len(peers), 6)]`,
with an explicit structural bound (each step consumes at least one
byte, so `fuel = length` suffices). -/
def chunk6Go (fuel : Nat) (l : Bytes) : List Bytes :=
  match fuel, l with
  | 0, _ => []
  | _, [] => []
  | fuel + 1, x :: xs => (x :: xs.take 5) :: chunk6Go fuel (xs.drop 5)

/-- Python `[peers[i:i+6] for i in range(0, len(peers), 6)]`. -/
def chunk6 (l : Bytes) : List Bytes := chunk6Go l.length l

/-- The list comprehension of `TrackerResponse.peers`:
`[(socket.inet_ntoa(p[:4]), Tracker.decode_port(p[:4])) for p in peers]`
— note that the source passes `p[:4]` (the first FOUR bytes) to
`decode_port` as well. -/
def peersGo : List Bytes → Res (List (String × Nat))
  | [] => .ok []
  | p :: rest =>
    match inet_ntoa (p.take 4) with
    | .exn e => .exn e
    | .ok ip =>
      match Tracker.decode_port (p.take 4) with
      | .exn e => .exn e
      | .ok port =>
        match peersGo rest with
        | .exn e => .exn e
        | .ok tail => .ok ((ip, port) :: tail)

/-- The `TrackerResponse.peers` property on a binary-model (compact)
`peers` byte string. -/
def TrackerResponse.peers (peersBytes : Bytes) : Res (List (String × Nat)) :=
  peersGo (chunk6 peersBytes)

/-! ## The bencoding codec (`src/bencoding.py`) -/

/-- The Python values fed to `Encoder.encode_next_data`. -/
inductive BValue where
  | int (n : Int)
  | str (s : String)
  | bytes (bs : Bytes)
  | list (vs : List BValue)
  | dict (kvs : List (BValue × BValue))
  deriving Repr

/-- Python `str.encode` (UTF-8 bytes of a string). -/
def strBytes (s : String) : Bytes :=
  s.toUTF8.toList.map (fun b => b.toNat)

/-- Python `Encoder._encode_int(value)`: `f'i{value}e'.encode()`. -/
def Encoder._encode_int (n : Int) : Bytes :=
  strBytes ("i" ++ toString n ++ "e")

/-- Python `Encoder._encode_string(value)`: `f'{len(value)}:{value}'.encode()`
(the length counts characters). -/
def Encoder._encode_string (s : String) : Bytes :=
  strBytes (toString s.length ++ ":" ++ s)

/-- Python `Encoder._encode_bytes(value)`. -/
def Encoder._encode_bytes (v : Bytes) : Bytes :=
  strBytes (toString v.length) ++ [58] ++ v

/-- Python `Encoder.encode_next_data(data)`.  The list branch starts its result
with `bytearray('8', 'utf-8')` — byte `56`, not `l` — and then calls the
nonexistent method `self.encode_next(item)`, so any nonempty list raises
`AttributeError`; the dict branch calls `self._encode_dict(data)` with an
argument although `_encode_dict(self)` accepts none, raising `TypeError`;
unsupported types yield `None`. -/
def Encoder.encode_next_data : BValue → Res (Option Bytes)
  | .str s => .ok (some (Encoder._encode_string s))
  | .int n => .ok (some (Encoder._encode_int n))
  | .list vs =>
    if vs.isEmpty then .ok (some ([56] ++ [101]))
    else .exn .attributeError
  | .dict _ => .exn .typeError
  | .bytes v => .ok (some (Encoder._encode_bytes v))

/-- Is this byte a member of `b'01234567899'`? -/
def isDigitByte (b : Nat) : Bool :=
  48 ≤ b && b ≤ 57

/-- Python `Decoder._peek` at position `index`: returns `None` already when
`index + 1 >= len(data)` (an off-by-one that hides the final byte). -/
def Decoder._peek (data : Bytes) (index : Nat) : Option Nat :=
  if index + 1 ≥ data.length then none else data.get? index

/-- Python `Decoder.decode_data(data)` from position 0.  All the helpers it
dispatches to (`_consume`, `_decode_int`, `_decode_list`, `_decode_dict`,
`_decode_string`) have `...` (Ellipsis) bodies in the source, so each of
them does nothing and returns `None`; `decode_data` therefore returns
`None` on every recognized token, `EOFError` on a missing one, and
`RuntimeError` on an invalid one. -/
def Decoder.decode_data (data : Bytes) : Res (Option BValue) :=
  match Decoder._peek data 0 with
  | none => .exn .eofError
  | some c =>
    if c == 105 then .ok none        -- b'i' : _consume(); _decode_int() stub
    else if c == 108 then .ok none   -- b'l' : _consume(); _decode_list() stub
    else if c == 100 then .ok none   -- b'd' : _consume(); _decode_dict() stub
    else if c == 101 then .ok none   -- b'e' : _consume(); return None
    else if isDigitByte c then .ok none  -- _decode_string() stub
    else .exn .runtimeError

/-- Python `decode(encode(v))`: the round trip of the two embeddings (an
encoder exception propagates; an encoder `None` would be a `TypeError`
in `Decoder.__init__`). -/
def bencodeRoundTrip (v : BValue) : Res (Option BValue) :=
  match Encoder.encode_next_data v with
  | .exn e => .exn e
  | .ok none => .exn .typeError
  | .ok (some bs) => Decoder.decode_data bs

/-! ## Concrete fixtures -/

/-- A two-piece torrent: a full 16384-byte piece and a final 116-byte
piece (`16500 % 16384 = 116`). -/
def t0 : Torrent := { pieces := [[9], [8]], piece_length := 16384, total_size := 16500 }

/-- A torrent whose standard pieces have two blocks each
(`piece_length = 2 * REQUEST_SIZE`) and whose final piece is 100 bytes. -/
def t4a : Torrent := { pieces := [[1], [2]], piece_length := 32768, total_size := 32868 }

/-- A torrent whose size is an exact multiple of the piece length
(`total_size mod piece_length = 0`). -/
def t4b : Torrent := { pieces := [[3]], piece_length := 16384, total_size := 16384 }

/-- Reach a state with piece 0 in `ongoing_pieces`: peer 1 announces a
bitfield holding piece 0, then asks for a block (the rarest-first path
moves piece 0 from `missing` to `ongoing`). -/
def c1ops : List PMOp := [.add_peer 1 [true, false], .next_request 1 0]

/-- The state after `c1ops`. -/
def c1pm : PMState := c1ops.foldl PMState.applyOp (PMState.init t0)

/-- Reach a state with a nonempty `pending_requests` list: after the
corrupt-piece reset, `_next_ongoing` hands out the reset block at time
5 ms, recording a `PendingRequest`. -/
def c6ops : List PMOp :=
  [.add_peer 1 [true, false], .next_request 1 0, .block_received 1 0 0 [7], .next_request 1 5]

/-- The state after `c6ops`: `pending_blocks` holds one request issued
at time 5 for the (tuple-attributed) block of piece 0. -/
def c6pm : PMState := c6ops.foldl PMState.applyOp (PMState.init t0)

/-! ## Theorems for the claims -/

/-- Claim C1: In `PieceManager.block_received`, receiving the data of the
final not-yet-retrieved block of an ongoing piece does NOT trigger the
hash comparison of the claim: the block is never even marked Retrieved
(its `offset` attribute is a 1-tuple, so no block matches the integer
offset), `Piece.is_hash_matching` is never called, nothing is written to
the output file, and the piece is reset and LEFT IN `ongoing_pieces`
(neither moved to `have` nor back to `missing`).  Concretely: from the
reachable state `c1pm` (piece 0 ongoing, its single block Missing),
`block_received(1, 0, 0, data)` leaves piece 0 ongoing with its block
reset to Missing and no data, `have_pieces` empty and no disk write. -/
theorem c1_block_received_no_hash_check_keeps_piece_ongoing :
    ((c1pm.block_received 1 0 0 [7]).2).ongoing_pieces =
      [{ index := 0
         blocks := [{ piece := .tup [0], offset := .tup [0], length := .tup [16384],
                      status := .int Block.Missing, data := none }]
         hash := [9] }] ∧
    ((c1pm.block_received 1 0 0 [7]).2).have_pieces = [] ∧
    ((c1pm.block_received 1 0 0 [7]).2).written = [] ∧
    ((c1pm.block_received 1 0 0 [7]).2).missing_pieces.map Piece.index = [1] ∧
    (c1pm.block_received 1 0 0 [7]).1 = .ok () := by
  decide

/-- Claim C3: The `TrackerResponse.peers` property applied to the compact
body `0A 00 00 01 1A E1 0A 00 00 02 1A E1` raises `struct.error` instead
of producing `[("10.0.0.1", 6881), ("10.0.0.2", 6881)]`: the source
passes `p[:4]` (four bytes) to `Tracker.decode_port`, whose
`struct.unpack(">H", ...)` requires exactly two. -/
theorem c3_compact_peers_decode_raises :
    TrackerResponse.peers [10, 0, 0, 1, 26, 225, 10, 0, 0, 2, 26, 225] =
      .exn .structError ∧
    (Res.exn .structError : Res (List (String × Nat))) ≠
      .ok [("10.0.0.1", 6881), ("10.0.0.2", 6881)] := by
  exact ⟨by decide, by simp⟩

/-- Claim C4: Immediately after construction the blocks do NOT satisfy the
claim: every attribute set in `Block.__init__` is a 1-tuple (trailing
commas), so a fresh block's `status` is the tuple `(Missing,)` — not
`Missing` — its `offset` is a tuple rather than an integer multiple of
`REQUEST_SIZE`, and its `length` is the tuple `(REQUEST_SIZE,)` (only a
short final block gets a plain-int length).  Moreover when
`total_size mod piece_length = 0` the final piece receives NO blocks at
all, so its block lengths sum to 0, not `piece_length`. -/
theorem c4_initial_blocks_are_tuple_valued :
    _initiate_pieces t4a =
      [{ index := 0
         blocks := [{ piece := .tup [0], offset := .tup [0], length := .tup [16384],
                      status := .tup [Block.Missing], data := none },
                    { piece := .tup [0], offset := .tup [16384], length := .tup [16384],
                      status := .tup [Block.Missing], data := none }]
         hash := [1] },
       { index := 1
         blocks := [{ piece := .tup [1], offset := .tup [0], length := .int 100,
                      status := .tup [Block.Missing], data := none }]
         hash := [2] }] ∧
    PyVal.tup [Block.Missing] ≠ PyVal.int Block.Missing ∧
    (_initiate_pieces t4b).map Piece.blocks = [[]] := by
  decide

/-- Claim C5: Immediately after a successful handshake `my_state` does NOT
contain `'choked'`: line 84 of `src/protocol.py` appends the misspelled
string `'chocked'`.  Consequently the request condition
(`'choked' not in my_state`, `'interested' in my_state`,
`'pending_request' not in my_state`) already holds when the very first
message arrives: handling a single `KeepAlive` — with no `Unchoke` ever
received — appends `'pending_request'` and asks the Piece Manager for a
block, i.e. the session reaches the request-sending path before any
`Unchoke`. -/
theorem c5_request_attempt_before_any_unchoke :
    SFlag.choked ∉ (Session.afterHandshake (PMState.init t0) 1).my_state ∧
    (Session.run (Session.afterHandshake (PMState.init t0) 1)
        [(WireMsg.keepAlive, 0)]).my_state =
      [SFlag.chocked, SFlag.interested, SFlag.pending_request] ∧
    WireMsg.unchoke ∉ [WireMsg.keepAlive] := by
  decide

/-- Claim C6: `next_request` on a peer holding the piece of an expired
pending request does not refresh-and-return that block: the scan in
`_expired_requests` indexes the peer's bitfield with
`request.block.piece`, which is a 1-tuple, so the call raises
`TypeError` (and even with an int index, the assignment
`request.added = current` on the immutable `PendingRequest` namedtuple
would raise `AttributeError`).  Concretely: from the reachable state
`c6pm` (one pending request issued at 5 ms, `max_pending_time` 300000),
`next_request(1)` at time 400000 raises and returns no block. -/
theorem c6_expired_request_refresh_raises :
    c6pm.next_request 1 400000 = (.exn .typeError, c6pm) ∧
    c6pm.pending_blocks.length = 1 ∧
    (c6pm.pending_blocks.headD (Block.init 0 0 0, 0)).2 + c6pm.max_pending_time < 400000 := by
  decide

/-- Claim C7: A buffer holding exactly the single 4-byte frame
`00 00 00 00` yields NO message: `parse` requires `len(buffer) > 4`
strictly.  And when the buffer does exceed 4 bytes with a zero length
prefix, `parse` returns `KeepAlive` WITHOUT advancing the buffer past
those 4 bytes. -/
theorem c7_keepalive_frame_not_parsed :
    PeerStreamIterator.parse [0, 0, 0, 0] = (.ok none, [0, 0, 0, 0]) ∧
    PeerStreamIterator.parse [0, 0, 0, 0, 2] = (.ok (some .keepAlive), [0, 0, 0, 0, 2]) ∧
    (Res.ok (some WireMsg.keepAlive) : Res (Option WireMsg)) ≠ .ok none := by
  decide

/-- Claim C8: `update_peer` does not set a bit in the peer's bitfield: as
written it accepts only `peer_id` (the call
`update_peer(remote_id, message.index)` in `src/protocol.py` would raise
`TypeError`) and its body DELETES the peer's entry, identical to
`remove_peer`.  Concretely, after `add_peer(7, bitfield)`,
`update_peer(7)` leaves `peers` empty. -/
theorem c8_update_peer_deletes_peer :
    (((PMState.init t0).add_peer 7 [true, false]).update_peer 7).peers = [] ∧
    dictGet (((PMState.init t0).add_peer 7 [true, false]).update_peer 7).peers 7 = none ∧
    dictGet ((PMState.init t0).add_peer 7 [true, false]).peers 7 = some [true, false] := by
  decide

/-- Claim C9: `decode(encode(v)) = v` fails, and encoding a list does not
produce the byte `l`: `_encode_list` starts its output with
`bytearray('8', 'utf-8')` (byte 56, not 108 = `l`), any nonempty list
raises `AttributeError` (`self.encode_next` does not exist), and the
decoder's helpers are `...` stubs, so decoding returns `None` for every
recognized token — in particular `decode(encode([])) = None ≠ []`. -/
theorem c9_bencode_round_trip_fails :
    Encoder.encode_next_data (BValue.list []) = .ok (some [56, 101]) ∧
    (56 : Nat) ≠ 108 ∧
    Encoder.encode_next_data (BValue.list [BValue.int 1]) = .exn .attributeError ∧
    bencodeRoundTrip (BValue.list []) = .ok none ∧
    (Res.ok none : Res (Option BValue)) ≠ .ok (some (BValue.list [])) := by
  refine ⟨rfl, by decide, rfl, rfl, by simp⟩

/-- Claim C10: `next_request(peer_id)` for a peer id absent from `peers`
(never added, or already removed) returns `None` and leaves the whole
`PieceManager` state — peers, pending requests and the three piece
collections — unchanged, raising nothing. -/
theorem c10_next_request_unknown_peer (pm : PMState) (peer_id now : Nat)
    (h : dictGet pm.peers peer_id = none) :
    pm.next_request peer_id now = (.ok none, pm) := by
  simp only [PMState.next_request, h]

/-- Witness for C10 at a concrete input: peer 5 was never added to the
freshly constructed manager. -/
theorem c10_next_request_unknown_peer_witness :
    dictGet (PMState.init t0).peers 5 = none ∧
    (PMState.init t0).next_request 5 0 = (.ok none, PMState.init t0) :=
  ⟨rfl, c10_next_request_unknown_peer (PMState.init t0) 5 0 rfl⟩

/-! ## The partition invariant of the piece collections (C2) -/

/-- A permutation from a syntactic equality. -/
theorem perm_of_list_eq {α : Type} {l₁ l₂ : List α} (h : l₁ = l₂) : l₁.Perm l₂ :=
  h ▸ List.Perm.refl _

/-- The `updateFirst` leaves any projection that its update preserves
pointwise unchanged on the whole list. -/
theorem updateFirst_map {α β : Type} (g : α → β) (q : α → Bool) (f : α → α)
    (h : ∀ a, g (f a) = g a) : ∀ l : List α, (updateFirst q f l).map g = l.map g := by
  intro l
  induction l with
  | nil => rfl
  | cons x xs ih =>
    by_cases hq : q x = true
    · simp [updateFirst, hq, h x]
    · simp [updateFirst, hq, ih]

/-- The `Piece.next_request` never changes the piece's index. -/
theorem Piece.next_request_index (p : Piece) : (Piece.next_request p).2.index = p.index := by
  unfold Piece.next_request
  cases p.blocks.find? (fun b => b.status == PyVal.int Block.Missing) <;> rfl

/-- The `Piece.block_received` never changes the piece's index. -/
theorem Piece.block_received_index (p : Piece) (o : Nat) (d : Bytes) :
    (Piece.block_received p o d).index = p.index := rfl

/-- The `Piece.reset` never changes the piece's index. -/
theorem Piece.reset_index (p : Piece) : p.reset.index = p.index := rfl

/-- The ongoing list returned by `nextOngoingGo` has the same indices,
in the same order, as its input. -/
theorem nextOngoingGo_indices (bf : List Bool) :
    ∀ (l : List Piece) (blk : Block) (l' : List Piece),
      nextOngoingGo bf l = .ok (some (blk, l')) →
      l'.map Piece.index = l.map Piece.index := by
  intro l
  induction l with
  | nil => intro blk l' h; simp [nextOngoingGo] at h
  | cons p rest ih =>
    intro blk l' h
    unfold nextOngoingGo at h
    cases hb : bitGet bf p.index with
    | exn e => rw [hb] at h; exact absurd h (by simp)
    | ok b =>
      rw [hb] at h
      cases b with
      | true =>
        simp only at h
        cases hnr : p.next_request with
        | mk ob p' =>
          rw [hnr] at h
          cases ob with
          | some blk0 =>
            simp only [Res.ok.injEq, Option.some.injEq, Prod.mk.injEq] at h
            rw [← h.2]
            have : p'.index = p.index := by
              have := Piece.next_request_index p
              rw [hnr] at this
              exact this
            simp [this]
          | none =>
            simp only at h
            cases hrec : nextOngoingGo bf rest with
            | exn e => rw [hrec] at h; exact absurd h (by simp)
            | ok orec =>
              rw [hrec] at h
              cases orec with
              | none => exact absurd h (by simp)
              | some br =>
                cases br with
                | mk blk1 rest1 =>
                  simp only [Res.ok.injEq, Option.some.injEq, Prod.mk.injEq] at h
                  rw [← h.2]
                  simp [ih blk1 rest1 hrec]
      | false =>
        simp only at h
        cases hrec : nextOngoingGo bf rest with
        | exn e => rw [hrec] at h; exact absurd h (by simp)
        | ok orec =>
          rw [hrec] at h
          cases orec with
          | none => exact absurd h (by simp)
          | some br =>
            cases br with
            | mk blk1 rest1 =>
              simp only [Res.ok.injEq, Option.some.injEq, Prod.mk.injEq] at h
              rw [← h.2]
              simp [ih blk1 rest1 hrec]

/-- Every piece in the `piece_count` association list built by
`_get_rarest_piece` comes from the missing list. -/
theorem buildPieceCount_mem (peersD : List (Nat × List Bool)) (bf : List Bool) :
    ∀ (l : List Piece) (cs : List (Piece × Nat)),
      buildPieceCount peersD bf l = .ok cs → ∀ pc ∈ cs, pc.1 ∈ l := by
  intro l
  induction l with
  | nil =>
    intro cs h pc hpc
    simp only [buildPieceCount, Res.ok.injEq] at h
    rw [← h] at hpc
    simp at hpc
  | cons p rest ih =>
    intro cs h pc hpc
    unfold buildPieceCount at h
    cases hb : bitGet bf p.index with
    | exn e => rw [hb] at h; exact absurd h (by simp)
    | ok b =>
      rw [hb] at h
      cases b with
      | false => exact List.mem_cons_of_mem p (ih cs h pc hpc)
      | true =>
        simp only at h
        cases hc : countHolders peersD p.index with
        | exn e => rw [hc] at h; exact absurd h (by simp)
        | ok c =>
          rw [hc] at h
          cases hrec : buildPieceCount peersD bf rest with
          | exn e => rw [hrec] at h; exact absurd h (by simp)
          | ok cs' =>
            rw [hrec] at h
            simp only [Res.ok.injEq] at h
            rw [← h] at hpc
            rcases List.mem_cons.mp hpc with hpc | hpc
            · rw [hpc]; exact List.mem_cons_self _ _
            · exact List.mem_cons_of_mem p (ih cs' hrec pc hpc)

/-- The running minimum of `pyMin` stays within the candidates. -/
theorem foldlMin_mem {α : Type} (f : α → Nat) :
    ∀ (xs : List α) (a : α),
      xs.foldl (fun acc y => if f y < f acc then y else acc) a ∈ a :: xs := by
  intro xs
  induction xs with
  | nil => intro a; simp
  | cons x xs ih =>
    intro a
    simp only [List.foldl_cons]
    by_cases hfx : f x < f a
    · simp only [if_pos hfx]
      rcases List.mem_cons.mp (ih x) with h | h
      · rw [h]; simp
      · simp [h]
    · simp only [if_neg hfx]
      rcases List.mem_cons.mp (ih a) with h | h
      · rw [h]; simp
      · simp [h]

/-- The `min(candidates, key=...)` returns one of the candidates. -/
theorem pyMin_mem {α : Type} (f : α → Nat) (l : List α) (a : α)
    (h : pyMin f l = .ok a) : a ∈ l := by
  cases l with
  | nil => simp [pyMin] at h
  | cons x xs =>
    simp only [pyMin, Res.ok.injEq] at h
    rw [← h]
    exact foldlMin_mem f xs x

/-- The `extractFirst` really is a decomposition of its input. -/
theorem extractFirst_eq {α : Type} (q : α → Bool) :
    ∀ (l pre : List α) (x : α) (post : List α),
      extractFirst q l = some (pre, x, post) → l = pre ++ x :: post := by
  intro l
  induction l with
  | nil => intro pre x post h; simp [extractFirst] at h
  | cons y ys ih =>
    intro pre x post h
    unfold extractFirst at h
    by_cases hq : q y = true
    · simp only [hq, if_pos, Option.some.injEq, Prod.mk.injEq] at h
      rw [← h.1, ← h.2.1, ← h.2.2]
      rfl
    · rw [if_neg hq] at h
      cases hrec : extractFirst q ys with
      | none => rw [hrec] at h; simp at h
      | some r =>
        rw [hrec] at h
        simp only [Option.map_some', Option.some.injEq, Prod.mk.injEq] at h
        have hys := ih r.1 r.2.1 r.2.2 (by rw [hrec])
        rw [← h.1, ← h.2.1, ← h.2.2]
        simpa using hys

/-- Moving a middle singleton to the head, up to permutation. -/
theorem perm_snoc_middle {α : Type} (E O H : List α) (i : α) :
    (E ++ (O ++ [i]) ++ H).Perm (i :: (E ++ O ++ H)) := by
  have h1 : E ++ (O ++ [i]) ++ H = (E ++ O) ++ (i :: H) := by simp
  rw [h1]
  exact List.perm_middle

/-- Moving an element from a final singleton back into the middle, up to
permutation. -/
theorem perm_mid_snoc {α : Type} (M P Q H : List α) (i : α) :
    (M ++ (P ++ Q) ++ (H ++ [i])).Perm (M ++ (P ++ i :: Q) ++ H) := by
  have l1 : (M ++ (P ++ Q) ++ (H ++ [i])).Perm (i :: (M ++ (P ++ Q) ++ H)) := by
    have he : M ++ (P ++ Q) ++ (H ++ [i]) = (M ++ (P ++ Q) ++ H) ++ [i] := by simp
    rw [he]
    exact List.perm_append_singleton i _
  have l2 : (M ++ (P ++ i :: Q) ++ H).Perm (i :: (M ++ (P ++ Q) ++ H)) := by
    have he : M ++ (P ++ i :: Q) ++ H = (M ++ P) ++ i :: (Q ++ H) := by simp
    have he2 : i :: (M ++ (P ++ Q) ++ H) = i :: ((M ++ P) ++ (Q ++ H)) := by simp
    rw [he, he2]
    exact List.perm_middle
  exact l1.trans l2.symm

/-- The `_next_ongoing` preserves the piece-index multiset of the state. -/
theorem next_ongoing_pieceIndices (pm : PMState) (bf : List Bool) (now : Nat) :
    ((pm._next_ongoing bf now).2).pieceIndices.Perm pm.pieceIndices := by
  unfold PMState._next_ongoing
  cases hg : nextOngoingGo bf pm.ongoing_pieces with
  | exn e => exact List.Perm.refl _
  | ok og =>
    cases og with
    | none => exact List.Perm.refl _
    | some br =>
      cases br with
      | mk blk og' =>
        have hidx := nextOngoingGo_indices bf pm.ongoing_pieces blk og' hg
        apply perm_of_list_eq
        simp [PMState.pieceIndices, hidx]

/-- When `_get_rarest_piece` raises, it leaves the state unchanged. -/
theorem get_rarest_exn (pm : PMState) (bf : List Bool) (e : PyErr) (pmE : PMState)
    (h : pm._get_rarest_piece bf = (.exn e, pmE)) : pmE = pm := by
  unfold PMState._get_rarest_piece at h
  cases hb : buildPieceCount pm.peers bf pm.missing_pieces with
  | exn e' =>
    rw [hb] at h
    simp only [Prod.mk.injEq] at h
    exact h.2.symm
  | ok cs =>
    rw [hb] at h
    simp only at h
    cases hm : pyMin (fun pc => pc.2) cs with
    | exn e' =>
      rw [hm] at h
      simp only [Prod.mk.injEq] at h
      exact h.2.symm
    | ok pc =>
      rw [hm] at h
      simp only [Prod.mk.injEq] at h
      exact absurd h.1 (by simp)

/-- When `_get_rarest_piece` succeeds, the piece it returns comes from
`missing_pieces`, which loses it while `ongoing_pieces` gains it at the
end. -/
theorem get_rarest_ok (pm : PMState) (bf : List Bool) (rp : Piece) (pm' : PMState)
    (h : pm._get_rarest_piece bf = (.ok rp, pm')) :
    rp ∈ pm.missing_pieces ∧
      pm' = { pm with missing_pieces := pm.missing_pieces.erase rp,
                      ongoing_pieces := pm.ongoing_pieces ++ [rp] } := by
  unfold PMState._get_rarest_piece at h
  cases hb : buildPieceCount pm.peers bf pm.missing_pieces with
  | exn e =>
    rw [hb] at h
    simp only [Prod.mk.injEq] at h
    exact absurd h.1 (by simp)
  | ok cs =>
    rw [hb] at h
    simp only at h
    cases hm : pyMin (fun pc => pc.2) cs with
    | exn e =>
      rw [hm] at h
      simp only [Prod.mk.injEq] at h
      exact absurd h.1 (by simp)
    | ok pc =>
      rw [hm] at h
      simp only [Prod.mk.injEq, Res.ok.injEq] at h
      constructor
      · rw [← h.1]
        exact buildPieceCount_mem pm.peers bf pm.missing_pieces cs hb pc (pyMin_mem _ cs pc hm)
      · rw [← h.2, h.1]

/-- The `next_request` preserves the piece-index multiset of the state. -/
theorem next_request_pieceIndices (pm : PMState) (peer_id now : Nat) :
    ((pm.next_request peer_id now).2).pieceIndices.Perm pm.pieceIndices := by
  unfold PMState.next_request
  cases hd : dictGet pm.peers peer_id with
  | none => exact List.Perm.refl _
  | some bf =>
    simp only
    cases he : pm._expired_requests bf now with
    | exn e => exact List.Perm.refl _
    | ok ob =>
      cases ob with
      | some b => exact List.Perm.refl _
      | none =>
        simp only
        cases hno : pm._next_ongoing bf now with
        | mk r pm1 =>
          have h1 : pm1.pieceIndices.Perm pm.pieceIndices := by
            have hh := next_ongoing_pieceIndices pm bf now
            rw [hno] at hh
            exact hh
          cases r with
          | exn e => exact h1
          | ok ob2 =>
            cases ob2 with
            | some b => exact h1
            | none =>
              simp only
              cases hgr : pm1._get_rarest_piece bf with
              | mk rr pm2 =>
                cases rr with
                | exn e =>
                  have := get_rarest_exn pm1 bf e pm2 hgr
                  rw [this]
                  exact h1
                | ok rp =>
                  obtain ⟨hmem, hpm2⟩ := get_rarest_ok pm1 bf rp pm2 hgr
                  subst hpm2
                  refine List.Perm.trans ?_ h1
                  have hidx : (Piece.next_request rp).2.index = rp.index :=
                    Piece.next_request_index rp
                  have e1 :
                      ({ pm1 with
                          missing_pieces := pm1.missing_pieces.erase rp,
                          ongoing_pieces :=
                            (pm1.ongoing_pieces ++ [rp]).dropLast ++
                              [(Piece.next_request rp).2] } : PMState).pieceIndices =
                        (pm1.missing_pieces.erase rp).map Piece.index ++
                          (pm1.ongoing_pieces.map Piece.index ++ [rp.index]) ++
                          pm1.have_pieces.map Piece.index := by
                    simp [PMState.pieceIndices, List.dropLast_concat, hidx]
                  have e2 : pm1.pieceIndices =
                      pm1.missing_pieces.map Piece.index ++
                        pm1.ongoing_pieces.map Piece.index ++
                        pm1.have_pieces.map Piece.index := by
                    simp [PMState.pieceIndices]
                  rw [e1, e2]
                  refine (perm_snoc_middle _ _ _ _).trans ?_
                  have hperm1 : pm1.missing_pieces.Perm (rp :: pm1.missing_pieces.erase rp) :=
                    List.perm_cons_erase hmem
                  have h3 := (hperm1.map Piece.index).append_right
                      (pm1.ongoing_pieces.map Piece.index)
                  have h4 := h3.append_right (pm1.have_pieces.map Piece.index)
                  refine List.Perm.symm (h4.trans (perm_of_list_eq ?_))
                  simp

/-- The `block_received` preserves the piece-index multiset of the state. -/
theorem block_received_pieceIndices (pm : PMState)
    (peer_id piece_index block_offset : Nat) (data : Bytes) :
    ((pm.block_received peer_id piece_index block_offset data).2).pieceIndices.Perm
      pm.pieceIndices := by
  unfold PMState.block_received
  cases hex : extractFirst (fun p => p.index == piece_index) pm.ongoing_pieces with
  | none => exact perm_of_list_eq (by simp [PMState.pieceIndices])
  | some t =>
    obtain ⟨pre, piece, post⟩ := t
    have hdecomp := extractFirst_eq _ pm.ongoing_pieces pre piece post hex
    simp only
    by_cases hic : (Piece.block_received piece block_offset data).is_complete = true
    · rw [if_pos hic]
      cases hdt : (Piece.block_received piece block_offset data).data with
      | none =>
        apply perm_of_list_eq
        simp [PMState.pieceIndices, hdecomp, Piece.block_received_index]
      | some bs =>
        simp only
        refine List.Perm.trans (perm_of_list_eq ?_)
          (List.Perm.trans
            (perm_mid_snoc (pm.missing_pieces.map Piece.index) (pre.map Piece.index)
              (post.map Piece.index) (pm.have_pieces.map Piece.index) piece.index)
            (perm_of_list_eq ?_))
        · simp [PMState.pieceIndices, Piece.block_received_index, List.append_assoc]
        · simp [PMState.pieceIndices, hdecomp, List.append_assoc]
    · rw [if_neg hic]
      apply perm_of_list_eq
      simp [PMState.pieceIndices, hdecomp, Piece.block_received_index, Piece.reset_index]

/-- Every `PieceManager` operation preserves the piece-index multiset. -/
theorem applyOp_pieceIndices (pm : PMState) (op : PMOp) :
    ((pm.applyOp op).pieceIndices).Perm pm.pieceIndices := by
  cases op with
  | add_peer p bf => exact perm_of_list_eq rfl
  | update_peer p =>
    simp only [PMState.applyOp, PMState.update_peer]
    split
    · exact perm_of_list_eq rfl
    · exact perm_of_list_eq rfl
  | remove_peer p =>
    simp only [PMState.applyOp, PMState.remove_peer]
    split
    · exact perm_of_list_eq rfl
    · exact perm_of_list_eq rfl
  | next_request p now => exact next_request_pieceIndices pm p now
  | block_received p i o d => exact block_received_pieceIndices pm p i o d

/-- Any finite sequence of operations preserves the piece-index
multiset. -/
theorem foldl_pieceIndices (ops : List PMOp) :
    ∀ pm : PMState, ((ops.foldl PMState.applyOp pm).pieceIndices).Perm pm.pieceIndices := by
  induction ops with
  | nil => intro pm; exact List.Perm.refl _
  | cons op rest ih =>
    intro pm
    exact (ih (pm.applyOp op)).trans (applyOp_pieceIndices pm op)

/-- The pieces created by `_initiate_pieces` are indexed `0, 1, …,
len(torrent.pieces) - 1` in order. -/
theorem initiate_pieces_indices (t : Torrent) :
    (_initiate_pieces t).map Piece.index = List.range t.pieces.length := by
  unfold _initiate_pieces
  rw [List.map_map]
  have hcomp :
      (Piece.index ∘ fun iv : Nat × Bytes =>
        if iv.1 < t.pieces.length - 1 then
          ({ index := iv.1
             blocks := (List.range (ceilDiv t.piece_length REQUEST_SIZE)).map
                 (fun o => Block.init iv.1 (o * REQUEST_SIZE) REQUEST_SIZE)
             hash := iv.2 } : Piece)
        else
          ({ index := iv.1
             blocks := lastPieceBlocks iv.1 (t.total_size % t.piece_length)
             hash := iv.2 } : Piece)) = Prod.fst := by
    funext iv
    by_cases hlt : iv.1 < t.pieces.length - 1
    · simp [hlt]
    · simp [hlt]
  rw [hcomp, List.enum_map_fst]

/-- Claim C2: After construction and after every finite sequence of
`add_peer`, `update_peer`, `remove_peer`, `next_request` and
`block_received` operations, the piece indices of `missing_pieces`,
`ongoing_pieces` and `have_pieces` together form a permutation of
`0, …, len(pieces) - 1`: the three collections are pairwise disjoint and
their union is exactly the set of all pieces of the torrent. -/
theorem c2_piece_collections_partition (t : Torrent) (_hpl : 0 < t.piece_length)
    (ops : List PMOp) :
    let pm := ops.foldl PMState.applyOp (PMState.init t)
    let M := pm.missing_pieces.map Piece.index
    let O := pm.ongoing_pieces.map Piece.index
    let H := pm.have_pieces.map Piece.index
    (M ++ O ++ H).Perm (List.range t.pieces.length) ∧
      M.Disjoint O ∧ M.Disjoint H ∧ O.Disjoint H ∧
      (∀ i, (i ∈ M ∨ i ∈ O ∨ i ∈ H) ↔ i < t.pieces.length) := by
  intro pm M O H
  have hinit : (PMState.init t).pieceIndices = List.range t.pieces.length := by
    simp [PMState.init, PMState.pieceIndices, initiate_pieces_indices]
  have hMOH : pm.pieceIndices = M ++ O ++ H := by
    simp [PMState.pieceIndices, M, O, H]
  have hperm : (M ++ O ++ H).Perm (List.range t.pieces.length) := by
    rw [← hMOH, ← hinit]
    exact foldl_pieceIndices ops (PMState.init t)
  have hnd : (M ++ O ++ H).Nodup :=
    hperm.nodup_iff.mpr (List.nodup_range t.pieces.length)
  have hnd2 := List.nodup_append.mp hnd
  have hnd3 := List.nodup_append.mp hnd2.1
  refine ⟨hperm, hnd3.2.2, ?_, ?_, ?_⟩
  · intro a haM haH
    exact hnd2.2.2 (List.mem_append_left O haM) haH
  · intro a haO haH
    exact hnd2.2.2 (List.mem_append_right M haO) haH
  · intro i
    rw [← List.mem_range (n := t.pieces.length), ← hperm.mem_iff]
    simp [or_assoc]

/-- Witness for C2 at a concrete torrent and operation sequence
(peer arrival, a request, a received block, a peer departure). -/
theorem c2_piece_collections_partition_witness :
    0 < t0.piece_length ∧
      (let pm := ([PMOp.add_peer 1 [true, false], PMOp.next_request 1 0,
                   PMOp.block_received 1 0 0 [7],
                   PMOp.remove_peer 1] : List PMOp).foldl PMState.applyOp (PMState.init t0)
       let M := pm.missing_pieces.map Piece.index
       let O := pm.ongoing_pieces.map Piece.index
       let H := pm.have_pieces.map Piece.index
       (M ++ O ++ H).Perm (List.range t0.pieces.length) ∧
         M.Disjoint O ∧ M.Disjoint H ∧ O.Disjoint H ∧
         (∀ i, (i ∈ M ∨ i ∈ O ∨ i ∈ H) ↔ i < t0.pieces.length)) :=
  ⟨by decide,
   c2_piece_collections_partition t0 (by decide)
     [PMOp.add_peer 1 [true, false], PMOp.next_request 1 0,
      PMOp.block_received 1 0 0 [7], PMOp.remove_peer 1]⟩
